import Mathlib

/-!
Shallow embedding of the `http-fwd` HTTP fan-out forwarder (`src/index.js`,
`src/config.js`).  JS strings are modelled as Lean `String`, JS objects used
as string-keyed maps as association lists `List (String × String)` with
JS-object insertion semantics (update in place when the key exists, append
otherwise), JS `null`/`undefined` as `Option`, and the per-target forward
outcomes (`forwardRequest` resolving to a response object or to `null`) as
`List (Option FwdResult)` in target-list order.
-/

/-- A settled forward attempt, as resolved by `forwardRequest` on a
successful transport exchange: `{statusCode, headers, rawBody}`
(`body`/`url` fields are omitted as no claim mentions them).  A transport
failure resolves to `null`, modelled as `none` in `Option FwdResult`. -/
structure FwdResult where
  statusCode : Nat
  headers : List (String × String)
  rawBody : String
deriving Repr, DecidableEq

/-- The canned `{code, message}` response body built by `initResponse`. -/
structure CannedBody where
  code : String
  message : String
deriving Repr, DecidableEq

/-- The object returned by `initResponse`: `httpStatus`, the canned `body`,
and the `awaitFwd` flag (left `undefined`, i.e. falsy, in the four fixed
branches; modelled as `false` there). -/
structure PolicyResponse where
  httpStatus : Nat
  awaitFwd : Bool
  body : CannedBody
deriving Repr, DecidableEq

/-- `initResponse` from `src/index.js` lines 194-240: maps the `RESPONSE`
configuration string to the policy response. -/
def initResponse (str : String) : PolicyResponse :=
  if str = "400" then ⟨400, false, ⟨str, "Bad Request"⟩⟩
  else if str = "404" then ⟨404, false, ⟨str, "Not Found"⟩⟩
  else if str = "500" then ⟨500, false, ⟨str, "Internal Error"⟩⟩
  else if str = "503" then ⟨503, false, ⟨str, "Service Unavailable"⟩⟩
  else ⟨200, str == "await-fwd", ⟨"200", "OK"⟩⟩

/-- The scan of `fwdResults` in `src/index.js` lines 79-97: skips falsy
items and items with a falsy `statusCode`; with `RETURNS_SUCCESS_FIRST` a
status-200 item is returned at once; a non-200 item is returned at once;
otherwise the 200 item overwrites the running candidate `acc`. -/
def scanAttempts (rsf : Bool) (acc : Option FwdResult) :
    List (Option FwdResult) → Option FwdResult
  | [] => acc
  | item :: rest =>
    match item with
    | none => scanAttempts rsf acc rest
    | some r =>
      if r.statusCode = 0 then scanAttempts rsf acc rest
      else if rsf && r.statusCode == 200 then some r
      else if r.statusCode != 200 then some r
      else scanAttempts rsf (some r) rest

/-- Body of the response sent to the caller: a canned `{code,message}`
body, an empty body (`res.end()` with no payload), or a forwarded raw
body. -/
inductive OutBody where
  | canned (b : CannedBody)
  | empty
  | raw (s : String)
deriving Repr, DecidableEq

/-- The response sent to the caller: status, body, and the single
`content-type` header copied from a forward result when present. -/
structure Outcome where
  status : Nat
  body : OutBody
  contentType : Option String
deriving Repr, DecidableEq

/-- Exact-key lookup in an association-list map (JS `obj[key]`). -/
def lookupHeader (hs : List (String × String)) (k : String) : Option String :=
  (hs.find? (fun p => p.1 == k)).map (fun p => p.2)

/-- The `.then(fwdResults => ...)` reconciliation in `src/index.js`
lines 72-116: non-await policies send the canned response; otherwise the
scan result is sent (status copied; empty `rawBody` ends the response with
no body; a truthy `content-type` response header is copied), falling back
to the canned response when the scan produced no candidate. -/
def reconcile (resp : PolicyResponse) (rsf : Bool)
    (attempts : List (Option FwdResult)) : Outcome :=
  if resp.awaitFwd then
    match scanAttempts rsf none attempts with
    | none => ⟨resp.httpStatus, .canned resp.body, none⟩
    | some r =>
      if r.rawBody = "" then ⟨r.statusCode, .empty, none⟩
      else
        ⟨r.statusCode, .raw r.rawBody,
          match lookupHeader r.headers "content-type" with
          | some ct => if ct = "" then none else some ct
          | none => none⟩
  else ⟨resp.httpStatus, .canned resp.body, none⟩

/-- Embedding of the JS `String.prototype.toLowerCase()` used by the code:
per-character lowering (the headers and methods involved are ASCII). -/
def jsToLower (s : String) : String :=
  ⟨s.data.map Char.toLower⟩

/-- Worker for `splitComma`: accumulates the current field (reversed) and
cuts at every comma. -/
def splitCommaGo (cur : List Char) : List Char → List (List Char)
  | [] => [cur.reverse]
  | c :: cs =>
    if c == ',' then cur.reverse :: splitCommaGo [] cs
    else splitCommaGo (c :: cur) cs

/-- Embedding of the JS `str.split(",")` used by the code: fields between
commas, so `""` yields `[""]` and a trailing comma yields a trailing
empty field. -/
def splitComma (s : String) : List String :=
  (splitCommaGo [] s.data).map (fun l => ⟨l⟩)

/-- The fixed reverse-proxy blocklist of `src/index.js` lines 39-46,
applied to the lower-cased header name. -/
def blockedHeader (key : String) : Bool :=
  key == "host" || key == "x-scheme" || key == "x-forwarded-for" ||
    key == "x-forwarded-proto"

/-- JS object property assignment `m[k] = v` on a string-keyed object
modelled as an association list: update in place when the key exists,
append otherwise (JS objects keep insertion order for string keys). -/
def objInsert (m : List (String × String)) (k v : String) :
    List (String × String) :=
  if m.any (fun p => p.1 == k) then
    m.map (fun p => if p.1 == k then (k, v) else p)
  else m ++ [(k, v)]

/-- `initForwardedHeaderMap` from `src/index.js` lines 242-256: an empty
configuration string (falsy) yields `null`; otherwise the comma-separated
names are lower-cased and collected (the JS object with `true` values is
modelled by the list of its keys, membership replacing the truthiness
test). -/
def initForwardedHeaderMap (str : String) : Option (List String) :=
  if str = "" then none
  else some ((splitComma str).map jsToLower)

/-- The header loop of `src/index.js` lines 33-54 over `rawHeaders`
(name/value pairs in wire order, original casing): skip the blocklist,
then — when an allowlist map exists — skip names missing from it, and
assign `headers[headerName] = headerValue`. -/
def headerLoop (allow : Option (List String))
    (acc : List (String × String)) :
    List (String × String) → List (String × String)
  | [] => acc
  | (n, v) :: rest =>
    let key := jsToLower n
    if blockedHeader key then headerLoop allow acc rest
    else
      match allow with
      | some m =>
        if m.contains key then headerLoop allow (objInsert acc n v) rest
        else headerLoop allow acc rest
      | none => headerLoop allow (objInsert acc n v) rest

/-- The forwarded header set of one inbound request: the header loop
result, plus the caller-IP injection of `src/index.js` lines 57-59, which
runs only when no allowlist map exists and `req.headers["x-real-ip"]` is
truthy. -/
def buildForwardedHeaders (allow : Option (List String))
    (raw : List (String × String)) (xRealIp : Option String) :
    List (String × String) :=
  let hs := headerLoop allow [] raw
  match allow, xRealIp with
  | none, some ip => if ip = "" then hs else objInsert hs "x-fwd-from-ip" ip
  | _, _ => hs

/-- Bool test that a key is present in an association-list map. -/
def hasKey (m : List (String × String)) (k : String) : Bool :=
  m.any (fun p => p.1 == k)

/-- `handleGetRawBody` from `src/index.js` lines 150-154: `req.rawBody` is
set only when the buffered body is non-empty; otherwise it stays
`undefined` (`none`). -/
def capturedRawBody (buf : Option String) : Option String :=
  match buf with
  | some b => if b.length = 0 then none else some b
  | none => none

/-- `src/index.js` lines 63-66: the `body` argument passed to
`forwardRequest` is `req.rawBody` unless the method lower-cases to
`"get"`, in which case it stays `undefined`. -/
def requestBody (method : String) (rawBody : Option String) :
    Option String :=
  if jsToLower method = "get" then none else rawBody

/-- `src/index.js` lines 310-312: `req.write(body)` runs only when `body`
is truthy, so the bytes written are absent for `undefined` or `""`. -/
def writtenBody (body : Option String) : Option String :=
  match body with
  | some s => if s = "" then none else some s
  | none => none

/-- Path clean-up in `forwardRequest`, `src/index.js` lines 261-265:
`path.match(/^\//)` tests for a leading slash; the `else` branch prepends
one; the `then` branch is `path.replace(/^\/+/, "/")`, replacing the
maximal leading slash run with a single slash. -/
def normalizePath (path : String) : String :=
  if path.data.head? = some '/' then
    ⟨'/' :: path.data.dropWhile (fun c => c == '/')⟩
  else ⟨'/' :: path.data⟩

/-- `src/index.js` line 266: the outbound URL string U+0060 host/path
concatenation (backtick template) after path clean-up. -/
def buildTargetUrl (host path : String) : String :=
  host ++ normalizePath path

/-- JS `Set.add` on an insertion-ordered set modelled as a duplicate-free
list: a no-op when the element is already present, an append otherwise. -/
def insertNew (acc : List String) (x : String) : List String :=
  if acc.contains x then acc else acc ++ [x]

/-- One iteration of the `initTargetHost` loop, `src/index.js`
lines 171-178: a parsed origin is added to the `Set` (no-op when already
present, insertion order kept), an unparseable entry is skipped. -/
def addOrigin (parse : String → Option String) (acc : List String)
    (u : String) : List String :=
  match parse u with
  | some origin => insertNew acc origin
  | none => acc

/-- `initTargetHost` from `src/index.js` lines 161-187, with the platform
URL parser abstracted as `parse : String → Option String` (returning the
origin of a parseable URL).  The two `process.exit` paths — falsy input
and an empty origin set — are modelled as `none`. -/
def initTargetHost (parse : String → Option String) (str : String) :
    Option (List String) :=
  if str = "" then none
  else
    let urls := (splitComma str).foldl (addOrigin parse) []
    if urls.length < 1 then none else some urls

/-- Model of the platform WHATWG `URL` origin (an external collaborator,
not repository code), restricted to plain `http://` / `https://` URLs
with a non-empty host and no userinfo or port normalization — enough for
the configured-origin examples. -/
def urlOriginModel (s : String) : Option String :=
  if "https://".data.isPrefixOf s.data then
    let host : String := ⟨(s.data.drop 8).takeWhile (fun c => c != '/')⟩
    if host = "" then none else some ("https://" ++ host)
  else if "http://".data.isPrefixOf s.data then
    let host : String := ⟨(s.data.drop 7).takeWhile (fun c => c != '/')⟩
    if host = "" then none else some ("http://" ++ host)
  else none

/-- The spec-side dedup: keep the first occurrence of each origin, in
first-seen order. -/
def firstSeenDedup : List String → List String
  | [] => []
  | x :: xs => x :: firstSeenDedup (xs.filter (fun y => y != x))
termination_by l => l.length
decreasing_by
  simp only [List.length_cons]
  exact Nat.lt_succ_of_le (List.length_filter_le _ _)

/-- The error body sent by the `.catch` handler of `src/index.js`
lines 117-134: `{code, message, data: {_debug: {error: err}}}`, the last
field carrying the caught fault value. -/
structure DebugBody where
  code : String
  message : String
  debugError : String
deriving Repr, DecidableEq

/-- The `.catch` handler of `src/index.js` lines 117-134: when
`res.headersSent` the fault is only logged and nothing is sent (`none`);
otherwise status 500 is sent with the debug body. -/
def catchHandler (headersSent : Bool) (err : String) :
    Option (Nat × DebugBody) :=
  if headersSent then none
  else some (500, ⟨"500", "Internal Error", err⟩)

/-- Concrete attempt with status 500 used in the reconciler examples. -/
def att500 : FwdResult := ⟨500, [("content-type", "text/plain")], "err"⟩

/-- Concrete attempt with status 200 used in the reconciler examples. -/
def att200 : FwdResult := ⟨200, [("content-type", "text/plain")], "ok"⟩

/-- Spec-side view for the `prioritizeSuccess` scan: the first non-`Failed`
attempt in target-list order. -/
def specFirstNonFailed (attempts : List (Option FwdResult)) : Option FwdResult :=
  (attempts.filterMap id).head?

/-- Spec-side view for the plain scan: among non-`Failed` attempts in
target-list order, the first with a status other than 200, else the last
one seen. -/
def specScanNoPriority (attempts : List (Option FwdResult)) : Option FwdResult :=
  let vs := attempts.filterMap id
  match vs.find? (fun r => r.statusCode != 200) with
  | some r => some r
  | none => vs.getLast?

/-- Every settled attempt in the list carries a truthy (non-zero) HTTP
status, as a real HTTP exchange always does. -/
def noZeroStatus (l : List (Option FwdResult)) : Bool :=
  l.all (fun i => match i with | none => true | some r => r.statusCode != 0)

lemma scanAttempts_of_all_none (rsf : Bool) (acc : Option FwdResult)
    (l : List (Option FwdResult)) (h : ∀ i ∈ l, i = none) :
    scanAttempts rsf acc l = acc := by
  induction l with
  | nil => rfl
  | cons item rest ih =>
    have hitem : item = none := h item (List.mem_cons_self _ _)
    subst hitem
    exact ih (fun i hi => h i (List.mem_cons_of_mem _ hi))

lemma initResponse_awaitFwd_eq_false (str : String) (h : str ≠ "await-fwd") :
    (initResponse str).awaitFwd = false := by
  unfold initResponse
  split_ifs <;> simp [h]

/-- C3: under the `AwaitForward` policy, when every forward attempt is
`Failed` the reconciler falls back to the canned Default200 response
`{code:"200", message:"OK"}` with status 200, whatever the
`prioritizeSuccess` flag. -/
theorem awaitfwd_all_failed_fallback (rsf : Bool)
    (l : List (Option FwdResult)) (h : ∀ i ∈ l, i = none) :
    reconcile (initResponse "await-fwd") rsf l =
      ⟨200, .canned ⟨"200", "OK"⟩, none⟩ := by
  unfold reconcile
  rw [scanAttempts_of_all_none rsf none l h]
  decide

/-- Witness for C3 at the concrete attempt list `[Failed, Failed]`. -/
theorem awaitfwd_all_failed_fallback_witness :
    reconcile (initResponse "await-fwd") false [none, none] =
      ⟨200, .canned ⟨"200", "OK"⟩, none⟩ :=
  awaitfwd_all_failed_fallback false [none, none] (by simp)

/-- C4: when `RESPONSE` is not `"await-fwd"` (policy `Fixed` or
`Default200`), the reconciler sends the policy's canned status and body
for every attempt list; in particular `RESPONSE="503"` yields status 503
with body `{code:"503", message:"Service Unavailable"}` for every request,
whatever the forward outcomes. -/
theorem fixed_policy_ignores_attempts :
    (∀ (str : String) (rsf : Bool) (l : List (Option FwdResult)),
        str ≠ "await-fwd" →
        reconcile (initResponse str) rsf l =
          ⟨(initResponse str).httpStatus, .canned (initResponse str).body, none⟩) ∧
    (∀ (rsf : Bool) (l : List (Option FwdResult)),
        reconcile (initResponse "503") rsf l =
          ⟨503, .canned ⟨"503", "Service Unavailable"⟩, none⟩) := by
  constructor
  · intro str rsf l h
    unfold reconcile
    rw [initResponse_awaitFwd_eq_false str h]
    simp
  · intro rsf l
    unfold reconcile
    have : (initResponse "503").awaitFwd = false := by decide
    rw [this]
    simp
    decide

/-- Witness for C4 at `RESPONSE="503"` with a successful 200 attempt. -/
theorem fixed_policy_ignores_attempts_witness :
    reconcile (initResponse "503") false [some att200] =
      ⟨(initResponse "503").httpStatus, .canned (initResponse "503").body, none⟩ :=
  fixed_policy_ignores_attempts.1 "503" false [some att200] (by decide)

lemma scanAttempts_true_eq (l : List (Option FwdResult))
    (h : noZeroStatus l = true) :
    scanAttempts true none l = specFirstNonFailed l := by
  induction l with
  | nil => rfl
  | cons item rest ih =>
    cases item with
    | none =>
      simp only [noZeroStatus, List.all_cons, Bool.and_eq_true] at h
      simp only [scanAttempts, specFirstNonFailed, List.filterMap_cons]
      exact ih h.2
    | some r =>
      simp only [noZeroStatus, List.all_cons, Bool.and_eq_true] at h
      have hr0 : ¬ r.statusCode = 0 := by simpa using h.1
      by_cases hr200 : r.statusCode = 200 <;>
        simp [scanAttempts, hr0, hr200, specFirstNonFailed, List.filterMap_cons]

/-- C1 counterexample: under `AwaitForward` with `prioritizeSuccess` set,
the attempt list `[Success(500), Success(200)]` makes the scan return the
500 attempt — not the 200 one the claim promises — because the non-200
branch breaks before the later 200 is ever inspected. -/
theorem rsf_claim_counterexample :
    scanAttempts true none [some att500, some att200] = some att500 ∧
    (reconcile (initResponse "await-fwd") true [some att500, some att200]).status = 500 ∧
    ¬ (reconcile (initResponse "await-fwd") true [some att500, some att200]).status = 200 := by
  refine ⟨by decide, by decide, by decide⟩

/-- C1 amended: under `AwaitForward` with `prioritizeSuccess` set, the
reconciler returns the first non-`Failed` attempt of the in-order scan,
whatever its status; in particular attempts `[Success(500), Success(200)]`
yield the 500 result. -/
theorem rsf_first_nonfailed :
    (∀ l : List (Option FwdResult), noZeroStatus l = true →
        scanAttempts true none l = specFirstNonFailed l) ∧
    (reconcile (initResponse "await-fwd") true [some att500, some att200]).status = 500 := by
  exact ⟨scanAttempts_true_eq, by decide⟩

/-- Witness for the amended C1 at `[Success(500), Success(200)]`. -/
theorem rsf_first_nonfailed_witness :
    scanAttempts true none [some att500, some att200] =
      specFirstNonFailed [some att500, some att200] :=
  rsf_first_nonfailed.1 [some att500, some att200] (by decide)

lemma scanAttempts_false_eq (l : List (Option FwdResult))
    (h : noZeroStatus l = true) :
    ∀ acc, scanAttempts false acc l =
      match (l.filterMap id).find? (fun r => r.statusCode != 200) with
      | some r => some r
      | none =>
        match (l.filterMap id).getLast? with
        | some r => some r
        | none => acc := by
  induction l with
  | nil => intro acc; rfl
  | cons item rest ih =>
    intro acc
    cases item with
    | none =>
      simp only [noZeroStatus, List.all_cons, Bool.and_eq_true] at h
      simp only [scanAttempts, List.filterMap_cons, id]
      exact ih h.2 acc
    | some r =>
      simp only [noZeroStatus, List.all_cons, Bool.and_eq_true] at h
      have hr0 : ¬ r.statusCode = 0 := by simpa using h.1
      by_cases hr200 : r.statusCode = 200
      · simp only [scanAttempts, hr0, if_false, Bool.false_and, hr200]
        rw [if_neg (by simp), if_neg (by simp)]
        rw [ih h.2 (some r)]
        simp only [List.filterMap_cons, id]
        rw [List.find?_cons_of_neg _ (by simp [hr200])]
        cases hvs : rest.filterMap id with
        | nil => simp
        | cons a as =>
          cases hf2 : List.find? (fun r => r.statusCode != 200) (a :: as) with
          | some b => simp [hf2]
          | none =>
            cases hgl : (a :: as).getLast? with
            | some b => simp [hf2, hgl]
            | none => simp [List.getLast?] at hgl
      · simp only [scanAttempts, hr0, if_false, Bool.false_and]
        rw [if_neg (by simp), if_pos (by simp [hr200])]
        simp only [List.filterMap_cons, id]
        rw [List.find?_cons_of_pos _ (by simp [hr200])]

lemma scanAttempts_false_none (l : List (Option FwdResult))
    (h : noZeroStatus l = true) :
    scanAttempts false none l = specScanNoPriority l := by
  rw [scanAttempts_false_eq l h none]
  cases hf : (l.filterMap id).find? (fun r => r.statusCode != 200) with
  | some b => simp only [specScanNoPriority, hf]
  | none =>
    cases hl : (l.filterMap id).getLast? with
    | some b => simp only [specScanNoPriority, hf, hl]
    | none => simp only [specScanNoPriority, hf, hl]

/-- C2: under `AwaitForward` with `prioritizeSuccess` unset, the scan over
non-`Failed` attempts in target-list order returns the first attempt whose
status is not 200, and, when all of them are 200, the last one seen; in
particular `[Failed, Success(500), Success(200)]` yields the 500 result. -/
theorem noprio_first_non200 :
    (∀ l : List (Option FwdResult), noZeroStatus l = true →
        scanAttempts false none l = specScanNoPriority l) ∧
    (reconcile (initResponse "await-fwd") false
        [none, some att500, some att200]).status = 500 := by
  exact ⟨scanAttempts_false_none, by decide⟩

/-- Witness for C2 at `[Failed, Success(500), Success(200)]`. -/
theorem noprio_first_non200_witness :
    scanAttempts false none [none, some att500, some att200] =
      specScanNoPriority [none, some att500, some att200] :=
  noprio_first_non200.1 [none, some att500, some att200] (by decide)

lemma bool_eq_of_iff {a b : Bool} (h : a = true ↔ b = true) : a = b := by
  cases a <;> cases b <;> simp_all

lemma fwd_ip_not_blocked : blockedHeader (jsToLower "x-fwd-from-ip") = false := by
  decide

lemma objInsert_all {P : String × String → Bool}
    (m : List (String × String)) (k v : String)
    (hkv : P (k, v) = true) (h : m.all P = true) :
    (objInsert m k v).all P = true := by
  unfold objInsert
  rw [List.all_eq_true] at h
  split
  · rw [List.all_eq_true]
    intro p hp
    rcases List.mem_map.mp hp with ⟨q, hq, rfl⟩
    by_cases hqk : (q.1 == k) = true
    · simpa [hqk] using hkv
    · simpa [hqk] using h q hq
  · rw [List.all_eq_true]
    intro p hp
    rcases List.mem_append.mp hp with hp | hp
    · exact h p hp
    · rcases List.mem_singleton.mp hp with rfl
      exact hkv

lemma headerLoop_all {P : String × String → Bool}
    (hP : ∀ n v, blockedHeader (jsToLower n) = false → P (n, v) = true)
    (allow : Option (List String)) (raw : List (String × String)) :
    ∀ acc, acc.all P = true → (headerLoop allow acc raw).all P = true := by
  induction raw with
  | nil => intro acc hacc; simpa [headerLoop] using hacc
  | cons hd rest ih =>
    intro acc hacc
    obtain ⟨a, v⟩ := hd
    simp only [headerLoop]
    by_cases hb : blockedHeader (jsToLower a) = true
    · rw [if_pos hb]
      exact ih acc hacc
    · rw [if_neg hb]
      have hb' : blockedHeader (jsToLower a) = false := by
        simpa using hb
      cases allow with
      | some m =>
        dsimp only
        by_cases hc : m.contains (jsToLower a) = true
        · rw [if_pos hc]
          exact ih _ (objInsert_all acc a v (hP a v hb') hacc)
        · rw [if_neg hc]
          exact ih acc hacc
      | none =>
        dsimp only
        exact ih _ (objInsert_all acc a v (hP a v hb') hacc)

/-- C5: for every inbound raw header list, allowlist configuration and
`x-real-ip` value, no header whose lower-cased name is `host`, `x-scheme`,
`x-forwarded-for` or `x-forwarded-proto` is ever present in the forwarded
header set. -/
theorem blocked_headers_never_forwarded :
    ∀ (allow : Option (List String)) (raw : List (String × String))
      (ip : Option String),
      (buildForwardedHeaders allow raw ip).all
        (fun p => !blockedHeader (jsToLower p.1)) = true := by
  intro allow raw ip
  have hloop : (headerLoop allow [] raw).all
      (fun p => !blockedHeader (jsToLower p.1)) = true := by
    refine headerLoop_all (fun n v hnv => by simp [hnv]) allow raw [] (by simp)
  unfold buildForwardedHeaders
  cases allow with
  | some m => simpa using hloop
  | none =>
    cases ip with
    | none => simpa using hloop
    | some s =>
      by_cases hs : s = ""
      · simpa [hs] using hloop
      · simp only [hs, if_neg, if_false]
        exact objInsert_all (headerLoop none [] raw) "x-fwd-from-ip" s
          (by simp [fwd_ip_not_blocked]) hloop

lemma hasKey_objInsert (m : List (String × String)) (k v n : String) :
    hasKey (objInsert m k v) n = (hasKey m n || (k == n)) := by
  apply bool_eq_of_iff
  simp only [hasKey, objInsert, Bool.or_eq_true, List.any_eq_true, beq_iff_eq]
  split
  case isTrue h =>
    constructor
    · rintro ⟨p, hp, hp1⟩
      rcases List.mem_map.mp hp with ⟨q, hq, rfl⟩
      by_cases hqk : q.1 = k
      · right
        simpa [hqk] using hp1
      · left
        exact ⟨q, hq, by simpa [hqk] using hp1⟩
    · rintro (⟨p, hp, hp1⟩ | rfl)
      · by_cases hpk : p.1 = k
        · refine ⟨(k, v), List.mem_map.mpr ⟨p, hp, by simp [hpk]⟩, ?_⟩
          show k = n
          rw [← hpk]
          exact hp1
        · exact ⟨p, List.mem_map.mpr ⟨p, hp, by simp [hpk]⟩, hp1⟩
      · obtain ⟨q, hq, hq1⟩ := h
        exact ⟨(k, v), List.mem_map.mpr ⟨q, hq, by simp [hq1]⟩, rfl⟩
  case isFalse h =>
    constructor
    · rintro ⟨p, hp, hp1⟩
      rcases List.mem_append.mp hp with hp' | hp'
      · exact Or.inl ⟨p, hp', hp1⟩
      · rcases List.mem_singleton.mp hp' with rfl
        exact Or.inr hp1
    · rintro (⟨p, hp, hp1⟩ | rfl)
      · exact ⟨p, List.mem_append.mpr (Or.inl hp), hp1⟩
      · exact ⟨(k, v), List.mem_append.mpr (Or.inr (List.mem_singleton.mpr rfl)), rfl⟩

lemma hasKey_headerLoop_some (m : List String) (raw : List (String × String)) :
    ∀ (acc : List (String × String)) (n : String),
      hasKey (headerLoop (some m) acc raw) n =
        (hasKey acc n ||
          (raw.any (fun p => p.1 == n) &&
            (!blockedHeader (jsToLower n) && m.contains (jsToLower n)))) := by
  induction raw with
  | nil => intro acc n; simp [headerLoop]
  | cons hd rest ih =>
    intro acc n
    obtain ⟨a, v⟩ := hd
    simp only [headerLoop]
    by_cases han : a = n
    · subst han
      by_cases hb : blockedHeader (jsToLower a) = true
      · rw [if_pos hb, ih]
        simp [List.any_cons, hb]
      · rw [if_neg hb]
        have hb' : blockedHeader (jsToLower a) = false := by simpa using hb
        by_cases hc : m.contains (jsToLower a) = true
        · rw [if_pos hc, ih, hasKey_objInsert]
          simp [List.any_cons, hb', hc, Bool.or_assoc, Bool.or_comm]
          exact Or.inr (by simpa using hc)
        · rw [if_neg hc, ih]
          have hm : jsToLower a ∉ m := by simpa using hc
          simp [List.any_cons, hm]
    · have han' : ((a, v).1 == n) = false := by simp [han]
      by_cases hb : blockedHeader (jsToLower a) = true
      · rw [if_pos hb, ih]
        simp [List.any_cons, han']
      · rw [if_neg hb]
        by_cases hc : m.contains (jsToLower a) = true
        · rw [if_pos hc, ih, hasKey_objInsert]
          have : (a == n) = false := by simp [han]
          simp [List.any_cons, han', this, Bool.or_assoc]
        · rw [if_neg hc, ih]
          simp [List.any_cons, han']

lemma mem_objInsert (m : List (String × String)) (k v : String)
    (p : String × String) (hp : p ∈ objInsert m k v) : p ∈ m ∨ p = (k, v) := by
  unfold objInsert at hp
  split at hp
  · rcases List.mem_map.mp hp with ⟨q, hq, rfl⟩
    by_cases hqk : (q.1 == k) = true
    · right
      simp [hqk]
    · left
      simpa [hqk] using hq
  · rcases List.mem_append.mp hp with h | h
    · exact Or.inl h
    · exact Or.inr (List.mem_singleton.mp h)

lemma mem_headerLoop (allow : Option (List String))
    (raw : List (String × String)) :
    ∀ (acc : List (String × String)) (p : String × String),
      p ∈ headerLoop allow acc raw → p ∈ acc ∨ p ∈ raw := by
  induction raw with
  | nil =>
    intro acc p hp
    exact Or.inl (by simpa [headerLoop] using hp)
  | cons hd rest ih =>
    intro acc p hp
    obtain ⟨a, v⟩ := hd
    simp only [headerLoop] at hp
    by_cases hb : blockedHeader (jsToLower a) = true
    · rw [if_pos hb] at hp
      rcases ih acc p hp with h | h
      · exact Or.inl h
      · exact Or.inr (List.mem_cons_of_mem _ h)
    · rw [if_neg hb] at hp
      cases allow with
      | some m =>
        dsimp only at hp
        by_cases hc : m.contains (jsToLower a) = true
        · rw [if_pos hc] at hp
          rcases ih _ p hp with h | h
          · rcases mem_objInsert _ _ _ _ h with h' | h'
            · exact Or.inl h'
            · exact Or.inr (by simp [h'])
          · exact Or.inr (List.mem_cons_of_mem _ h)
        · rw [if_neg hc] at hp
          rcases ih acc p hp with h | h
          · exact Or.inl h
          · exact Or.inr (List.mem_cons_of_mem _ h)
      | none =>
        dsimp only at hp
        rcases ih _ p hp with h | h
        · rcases mem_objInsert _ _ _ _ h with h' | h'
          · exact Or.inl h'
          · exact Or.inr (by simp [h'])
        · exact Or.inr (List.mem_cons_of_mem _ h)

lemma buildForwardedHeaders_some (m : List String)
    (raw : List (String × String)) (ip : Option String) :
    buildForwardedHeaders (some m) raw ip = headerLoop (some m) [] raw := by
  cases ip <;> rfl

/-- C6: with an allowlist configured, a name is a key of the forwarded
header set exactly when it occurs among the inbound raw headers, its
lower-casing is not in the fixed blocklist, and its lower-casing is in the
allowlist; every forwarded name/value pair is one of the inbound pairs
(original casing preserved) and no caller-IP header is injected; with
allowlist `["x-api-key"]` and inbound `{X-Api-Key: "k", X-Other: "v"}`
only `{X-Api-Key: "k"}` is forwarded. -/
theorem allowlist_exact_filtering :
    (∀ (m : List String) (raw : List (String × String)) (ip : Option String)
        (n : String),
        hasKey (buildForwardedHeaders (some m) raw ip) n =
          (raw.any (fun p => p.1 == n) &&
            (!blockedHeader (jsToLower n) && m.contains (jsToLower n)))) ∧
    (∀ (m : List String) (raw : List (String × String)) (ip : Option String),
        (buildForwardedHeaders (some m) raw ip).all
          (fun p => raw.contains p) = true) ∧
    buildForwardedHeaders (initForwardedHeaderMap "x-api-key")
        [("X-Api-Key", "k"), ("X-Other", "v")] none = [("X-Api-Key", "k")] := by
  refine ⟨?_, ?_, by decide⟩
  · intro m raw ip n
    rw [buildForwardedHeaders_some, hasKey_headerLoop_some]
    simp [hasKey]
  · intro m raw ip
    rw [buildForwardedHeaders_some, List.all_eq_true]
    intro p hp
    rcases mem_headerLoop (some m) raw [] p hp with h | h
    · simp at h
    · exact List.elem_eq_true_of_mem h

lemma dropWhile_replicate_slash (t : List Char) :
    ∀ n : Nat, List.dropWhile (fun c => c == '/')
      (List.replicate n '/' ++ t) = List.dropWhile (fun c => c == '/') t := by
  intro n
  induction n with
  | zero => simp
  | succ k ih => simp [List.replicate_succ, ih]

lemma dropWhile_slash_of_head_ne (t : List Char) (h : t.head? ≠ some '/') :
    List.dropWhile (fun c => c == '/') t = t := by
  cases t with
  | nil => rfl
  | cons c cs =>
    have hc : ¬ c = '/' := fun hc => h (by simp [hc])
    simp [List.dropWhile_cons, hc]

/-- C7: the dispatcher's path clean-up prepends a single `/` when the
inbound path does not start with one, and otherwise collapses exactly the
leading run of `/` characters to a single `/`, keeping interior runs; the
outbound URL is the target origin concatenated with the cleaned path, as
in `//a//b` cleaning to `/a//b` and origin `https://a` with path `//x`
giving `https://a/x`. -/
theorem path_normalization :
    (∀ p : String, p.data.head? ≠ some '/' →
        normalizePath p = ⟨'/' :: p.data⟩) ∧
    (∀ (n : Nat) (s : String), s.data.head? ≠ some '/' →
        normalizePath ⟨List.replicate (n + 1) '/' ++ s.data⟩ =
          ⟨'/' :: s.data⟩) ∧
    normalizePath "//a//b" = "/a//b" ∧
    buildTargetUrl "https://a" "//x" = "https://a/x" := by
  refine ⟨?_, ?_, by decide, by decide⟩
  · intro p hp
    unfold normalizePath
    rw [if_neg hp]
  · intro n s hs
    unfold normalizePath
    have hhead : (String.mk (List.replicate (n + 1) '/' ++ s.data)).data.head? =
        some '/' := by
      simp [List.replicate_succ]
    rw [if_pos hhead]
    have : (String.mk (List.replicate (n + 1) '/' ++ s.data)).data =
        List.replicate (n + 1) '/' ++ s.data := rfl
    rw [this, dropWhile_replicate_slash, dropWhile_slash_of_head_ne s.data hs]

/-- Witness for C7: a path with no leading slash gets one prepended, and a
doubled leading slash collapses. -/
theorem path_normalization_witness :
    normalizePath "a" = ⟨'/' :: "a".data⟩ ∧
    normalizePath ⟨List.replicate 2 '/' ++ "x".data⟩ = ⟨'/' :: "x".data⟩ :=
  ⟨path_normalization.1 "a" (by decide),
    path_normalization.2.1 1 "x" (by decide)⟩

/-- C8: a method that lower-cases to `get` never sends a body, even when
the inbound request carried one; any other method forwards the captured
raw body unchanged. -/
theorem get_never_sends_body :
    (∀ (method : String) (buf : Option String), jsToLower method = "get" →
        writtenBody (requestBody method (capturedRawBody buf)) = none) ∧
    (∀ (method : String) (buf : Option String), jsToLower method ≠ "get" →
        writtenBody (requestBody method (capturedRawBody buf)) =
          capturedRawBody buf) := by
  constructor
  · intro method buf h
    simp [requestBody, h, writtenBody]
  · intro method buf h
    rw [show requestBody method (capturedRawBody buf) = capturedRawBody buf
      from by simp [requestBody, h]]
    cases buf with
    | none => rfl
    | some b =>
      obtain ⟨l⟩ := b
      cases l with
      | nil => rfl
      | cons c cs =>
        have hne : (⟨c :: cs⟩ : String) ≠ "" := by
          intro hEq
          have hdata := congrArg String.data hEq
          simp at hdata
        simp [capturedRawBody, writtenBody, String.length, hne]

/-- Witness for C8: `GeT` with a payload writes nothing; `POST` forwards
the payload unchanged. -/
theorem get_never_sends_body_witness :
    writtenBody (requestBody "GeT" (capturedRawBody (some "payload"))) = none ∧
    writtenBody (requestBody "POST" (capturedRawBody (some "payload"))) =
      capturedRawBody (some "payload") :=
  ⟨get_never_sends_body.1 "GeT" (some "payload") (by decide),
    get_never_sends_body.2 "POST" (some "payload") (by decide)⟩

lemma beq_eq_decide_str (y x : String) : (y == x) = decide (y = x) := by
  by_cases h : y = x <;> simp [h]

lemma contains_append_singleton (acc : List String) (x y : String) :
    (acc ++ [x]).contains y = (acc.contains y || y == x) := by
  induction acc with
  | nil => simp [beq_eq_decide_str]
  | cons a as ih => simp [List.contains_cons, ih, Bool.or_assoc, beq_eq_decide_str]

lemma foldl_addOrigin (parse : String → Option String) (l : List String) :
    ∀ acc, l.foldl (addOrigin parse) acc =
      (l.filterMap parse).foldl insertNew acc := by
  induction l with
  | nil => intro acc; rfl
  | cons u us ih =>
    intro acc
    cases hu : parse u with
    | none => simp [List.foldl_cons, addOrigin, hu, List.filterMap_cons, ih]
    | some o => simp [List.foldl_cons, addOrigin, hu, List.filterMap_cons, ih]

lemma foldl_insertNew_eq (l : List String) :
    ∀ acc, l.foldl insertNew acc =
      acc ++ firstSeenDedup (l.filter (fun y => !acc.contains y)) := by
  induction l with
  | nil => intro acc; simp [firstSeenDedup]
  | cons x xs ih =>
    intro acc
    simp only [List.foldl_cons]
    by_cases hmem : x ∈ acc
    · rw [show insertNew acc x = acc from by simp [insertNew, hmem]]
      rw [ih acc]
      congr 2
      simp [List.filter_cons, hmem]
    · rw [show insertNew acc x = acc ++ [x] from by simp [insertNew, hmem]]
      rw [ih (acc ++ [x])]
      rw [List.append_assoc]
      congr 1
      rw [List.filter_cons]
      have hx' : (!acc.contains x) = true := by simp [hmem]
      rw [if_pos hx']
      rw [firstSeenDedup]
      rw [List.singleton_append]
      rw [List.filter_filter]
      refine congrArg (fun t => x :: firstSeenDedup t) (List.filter_congr ?_)
      intro a _
      by_cases hmema : a ∈ acc <;> by_cases hax : a = x <;>
        simp [contains_append_singleton, hmema, hax, beq_eq_decide_str]

lemma initTargetHost_some_eq (parse : String → Option String) (str : String)
    (urls : List String) (h : initTargetHost parse str = some urls) :
    urls = firstSeenDedup ((splitComma str).filterMap parse) := by
  by_cases hs : str = ""
  · rw [initTargetHost, if_pos hs] at h
    cases h
  · rw [initTargetHost, if_neg hs] at h
    simp only at h
    by_cases hlen : ((splitComma str).foldl (addOrigin parse) []).length < 1
    · rw [if_pos hlen] at h
      cases h
    · rw [if_neg hlen] at h
      have hurls := (Option.some.injEq _ _).mp h
      rw [← hurls, foldl_addOrigin, foldl_insertNew_eq]
      simp

/-- C9: whenever `initTargetHost` starts the server (returns a target
list), that list is the parseable entries' origins deduplicated while
preserving first-seen order, unparseable entries skipped; the configured
list `https://a,https://a/path,https://b` resolves to
`["https://a", "https://b"]`. -/
theorem target_resolver_dedup :
    (∀ (parse : String → Option String) (str : String) (urls : List String),
        initTargetHost parse str = some urls →
        urls = firstSeenDedup ((splitComma str).filterMap parse)) ∧
    initTargetHost urlOriginModel "https://a,https://a/path,https://b" =
      some ["https://a", "https://b"] := by
  refine ⟨initTargetHost_some_eq, by decide⟩

/-- Witness for C9 at the configured list
`https://a,https://a/path,https://b`. -/
theorem target_resolver_dedup_witness :
    ["https://a", "https://b"] =
      firstSeenDedup ((splitComma "https://a,https://a/path,https://b").filterMap
        urlOriginModel) :=
  target_resolver_dedup.1 urlOriginModel "https://a,https://a/path,https://b"
    ["https://a", "https://b"] (by decide)

/-- C10 counterexample: the 500 body sent by the catch handler embeds the
caught fault value in its `data._debug.error` field, so at the concrete
fault `"ECONNRESET"` the body carries that raw string and differs from the
body sent for another fault — the body is not free of raw error
details. -/
theorem catch_debug_counterexample :
    catchHandler false "ECONNRESET" =
      some (500, ⟨"500", "Internal Error", "ECONNRESET"⟩) ∧
    catchHandler false "ECONNRESET" ≠ catchHandler false "" := by
  exact ⟨rfl, by decide⟩

/-- C10 amended: a reconciliation fault before any response was sent makes
the caller receive status 500 with code `"500"` and message
`"Internal Error"` — a status/code/message part independent of the fault —
plus a `data._debug.error` field carrying the raw fault value; when a
response was already sent, nothing further is sent. -/
theorem catch_debug_amended :
    (∀ err : String, catchHandler false err =
        some (500, ⟨"500", "Internal Error", err⟩)) ∧
    (∀ err : String, catchHandler true err = none) ∧
    (∀ err1 err2 : String,
        (catchHandler false err1).map (fun p => (p.1, p.2.code, p.2.message)) =
          (catchHandler false err2).map (fun p => (p.1, p.2.code, p.2.message))) := by
  exact ⟨fun _ => rfl, fun _ => rfl, fun _ _ => rfl⟩
